import Mathlib

/-!
Shallow embedding of the Codelens-MCP repository (src/github.py,
src/tools/packages.py, src/tools/combined.py) and proofs about it.

Python strings are modelled as `List Char` (`Str`).  Network responses and
standard-library JSON / ISO-timestamp parsing are external collaborators and
are modelled as explicit oracle parameters; everything the repository itself
computes is translated function-by-function from the source.
-/

namespace Codelens

abbrev Str := List Char

/-- Python `str.strip()` (whitespace from both ends). -/
def pyStrip (s : Str) : Str :=
  ((s.dropWhile Char.isWhitespace).reverse.dropWhile Char.isWhitespace).reverse

/-- Python `str.lower()` (per-character lowercase). -/
def pyLower (s : Str) : Str := s.map Char.toLower

/-- Python `s.split(c)` for a one-character separator: keeps empty pieces. -/
def splitOnChar (c : Char) : Str → List Str
  | [] => [[]]
  | x :: xs =>
    if x = c then [] :: splitOnChar c xs
    else match splitOnChar c xs with
      | [] => [[x]]
      | p :: ps => (x :: p) :: ps

/-- Finds the first occurrence of `sep` in `l`; returns the part before it and
the part after it.  `none` when `sep` does not occur.  Models both Python
`sep in s` (via `isSome`) and `s.split(sep, 1)`. -/
def splitFirst (sep : Str) : Str → Option (Str × Str)
  | [] => if sep.isPrefixOf ([] : Str) then some ([], []) else none
  | c :: rest =>
    if sep.isPrefixOf (c :: rest) then some ([], (c :: rest).drop sep.length)
    else (splitFirst sep rest).map (fun p => (c :: p.1, p.2))

/-- Python `sep in s` for a non-empty separator. -/
def hasSub (sep : Str) (l : Str) : Bool := (splitFirst sep l).isSome

/-- Python `s.split()` with no argument: split on whitespace runs, no empty
tokens.  `acc` holds the current token reversed. -/
def wordsAux : Str → Str → List Str
  | [], acc => if acc = [] then [] else [acc.reverse]
  | c :: rest, acc =>
    if c.isWhitespace then
      if acc = [] then wordsAux rest []
      else acc.reverse :: wordsAux rest []
    else wordsAux rest (c :: acc)

def pyWords (s : Str) : List Str := wordsAux s []

/-- Python `s.replace(c, repl)` for a one-character pattern. -/
def replaceChar (c : Char) (repl : Str) : Str → Str
  | [] => []
  | x :: xs => if x = c then repl ++ replaceChar c repl xs else x :: replaceChar c repl xs

/-! ## src/github.py -/

/-- The fixed stopword set of `extract_search_term` (src/github.py). -/
def stopwords : List Str :=
  ["how".data, "does".data, "do".data, "what".data, "is".data, "are".data,
   "where".data, "which".data, "find".data, "show".data, "me".data, "the".data,
   "a".data, "an".data, "in".data, "this".data, "codebase".data, "repo".data,
   "repository".data, "all".data, "any".data, "give".data, "explain".data,
   "tell".data, "work".data, "works".data, "implemented".data, "handled".data,
   "used".data, "using".data, "code".data, "related".data]

/-- The `keywords` list built inside `extract_search_term`:
`[w for w in words if w not in stopwords and len(w) > 2]` applied to
`question.lower().replace("?", "").replace(",", "").split()`. -/
def searchKeywords (question : Str) : List Str :=
  (pyWords (replaceChar ',' [] (replaceChar '?' [] (pyLower question)))).filter
    (fun w => !(stopwords.contains w) && decide (2 < w.length))

/-- Model of `extract_search_term` (src/github.py).  The Python fallback
`question.split()[0]` raises `IndexError` when `question.split()` is empty;
that non-returning path is modelled as `none`. -/
def extract_search_term (question : Str) : Option Str :=
  let keywords := searchKeywords question
  if keywords.isEmpty then (pyWords question).head?
  else some (List.intercalate [' '] (keywords.take 3))

/-- One GitHub contents-API response, as `get_file_content` observes it: a
trapped transport/HTTP error, a 200 body with base64 encoding (carrying the
already-decoded text, since base64 transport is an external collaborator), or
a 200 body without a recognized encoding. -/
inductive GhResp where
  | err (msg : Str)
  | b64 (decoded : Str)
  | noEncoding

/-- Model of `get_file_content` (src/github.py). -/
def get_file_content (resp : Str → GhResp) (path : Str) : Str :=
  match resp path with
  | .err m => "Error fetching ".data ++ path ++ ": ".data ++ m
  | .b64 c => c
  | .noEncoding => "Could not decode ".data ++ path

/-- The fixed list of manifest filenames probed by `get_package_files`. -/
def packageFileNames : List Str :=
  ["package.json".data, "requirements.txt".data, "go.mod".data,
   "Cargo.toml".data, "pom.xml".data, "Gemfile".data, "composer.json".data]

/-- Model of `get_package_files` (src/github.py): keep a file exactly when the string
returned by `get_file_content` does not start with `"Error"`.  The Python
dict (insertion-ordered, keys distinct here) is modelled as an assoc list. -/
def get_package_files (resp : Str → GhResp) : List (Str × Str) :=
  packageFileNames.filterMap (fun f =>
    if ("Error".data).isPrefixOf (get_file_content resp f) then none
    else some (f, get_file_content resp f))

/-! ## src/tools/packages.py -/

/-- Model of `_months_since` (src/tools/packages.py).  `datetime.fromisoformat` is an
external collaborator, modelled by the oracle `parseIso`, which returns the
parsed instant as an integer number of seconds on a UTC timeline (or `none`
when the string raises, the swallowed-exception path).  `timedelta.days`
floors, `int()` truncates toward zero. -/
def months_since (parseIso : Str → Option Int) (now : Int) (date_str : Str) : Option Int :=
  if date_str = [] then none
  else
    match parseIso (replaceChar 'Z' ("+00:00".data) date_str) with
    | some t => some (Int.tdiv (Int.fdiv (now - t) 86400) 30)
    | none => none

/-- One entry of the `issues` list built in `check_dependencies`; the three
constructors stand for the strings `"DEPRECATED"`,
`f"no release in .. mo"` and `"< 2 contributors"`. -/
inductive Issue where
  | deprecatedPkg
  | staleRelease (months : Int)
  | fewContributors
deriving DecidableEq

/-- The `issues` list of `check_dependencies` for one fetched package. -/
def issuesFor (deprecated : Bool) (months : Option Int) (contributors : Int) : List Issue :=
  (if deprecated then [Issue.deprecatedPkg] else []) ++
  (match months with
   | some m => if 12 < m then [Issue.staleRelease m] else []
   | none => []) ++
  (if contributors < 2 then [Issue.fewContributors] else [])

/-- Predicate under which `check_dependencies` marks a package risky: `issues` is
non-empty (`if issues:`). -/
def classified_risky (deprecated : Bool) (months : Option Int) (contributors : Int) : Bool :=
  !(issuesFor deprecated months contributors).isEmpty

/-- One line of the `requirements.txt` branch of `_extract_packages`
(src/tools/packages.py): `none` for lines the loop skips, otherwise the
appended `(name, version)` pair. -/
def parseReqLine (line : Str) : Option (Str × Str) :=
  let t := pyStrip line
  if t = [] then none
  else if (['#'] : Str).isPrefixOf t then none
  else if (['-'] : Str).isPrefixOf t then none
  else
    match splitFirst ("==".data) t with
    | some (name, version) => some (pyStrip name, "==".data ++ pyStrip version)
    | none =>
      match splitFirst (">=".data) t with
      | some (name, version) => some (pyStrip name, ">=".data ++ pyStrip version)
      | none => some (pyStrip t, [])

/-- The `requirements.txt` branch of `_extract_packages`. -/
def extract_packages_requirements (content : Str) : List (Str × Str) :=
  (splitOnChar '\n' content).filterMap parseReqLine

/-- Whether the loop body of the `requirements.txt` branch keeps a line:
stripped non-empty, no `#` and no `-` at the front. -/
def reqLineKept (line : Str) : Bool :=
  let t := pyStrip line
  !(t.isEmpty) && !((['#'] : Str).isPrefixOf t) && !((['-'] : Str).isPrefixOf t)

/-- JSON values as `json.loads` hands them back. -/
inductive Jval where
  | null
  | bool (b : Bool)
  | num (n : Int)
  | str (s : Str)
  | arr (elems : List Jval)
  | obj (fields : List (Str × Jval))

/-- Model of `data.get(section, ..).items()` for a parsed `package.json` object:
an absent key yields the empty item list, an object value yields its items in
insertion order, and any non-object value raises `AttributeError` on
`.items()` (modelled `none`; the surrounding `try` then returns the packages
accumulated so far). -/
def sectionItems (fields : List (Str × Jval)) (key : Str) : Option (List (Str × Jval)) :=
  match List.lookup key fields with
  | none => some []
  | some (Jval.obj items) => some items
  | some _ => none

/-- The character `content.find` looks for in the `package.json` branch. -/
def openBrace : Char := Char.ofNat 123

/-- The `package.json` branch of `_extract_packages` (src/tools/packages.py).
`json.loads` is an external collaborator, modelled by the oracle `loads`
returning the items of the top-level object in insertion order (`none` when
it raises, the swallowed-exception path). -/
def extract_packages_packagejson (loads : Str → Option (List (Str × Jval)))
    (content : Str) : List (Str × Jval) :=
  match splitFirst ([openBrace] : Str) content with
  | none => []
  | some (_, post) =>
    match loads (openBrace :: post) with
    | none => []
    | some fields =>
      match sectionItems fields ("dependencies".data) with
      | none => []
      | some deps =>
        match sectionItems fields ("devDependencies".data) with
        | none => deps
        | some devs => deps ++ devs

/-- A package record from the Libraries.io API, with the three fields
`check_dependencies` reads (via `.get` with the defaults shown in source). -/
structure PkgApiData where
  latest_release_published_at : Str
  deprecated : Bool
  contributions_count : Int

/-- A `_api_get` outcome: a dict with an `"error"` key, or package data. -/
inductive ApiResult where
  | err (msg : Str)
  | ok (data : PkgApiData)

/-- One line of the `check_dependencies` report, abstracting the formatted
strings (`f"\n.. (..):"`, `"  ? .. — could not fetch info"`,
`"  [!] .. — .."`, `"  [ok] .. .."`). -/
inductive ReportLine where
  | header (filename platform : Str)
  | fetchFailed (name : Str)
  | riskyEntry (name version : Str) (issues : List Issue)
  | healthyEntry (name version : Str)
deriving DecidableEq

/-- The result-collection loop of `check_dependencies`: error lines are
appended to `all_results` immediately (in package order), risky and healthy
lines accumulate in their own lists. -/
def collectResults (parseIso : Str → Option Int) (now : Int) :
    List (Str × Str × ApiResult) → List ReportLine × List ReportLine × List ReportLine
  | [] => ([], [], [])
  | (name, version, res) :: rest =>
    let gathered := collectResults parseIso now rest
    match res with
    | .err _ => (ReportLine.fetchFailed name :: gathered.1, gathered.2.1, gathered.2.2)
    | .ok data =>
      let months := months_since parseIso now data.latest_release_published_at
      let issues := issuesFor data.deprecated months data.contributions_count
      if issues.isEmpty then
        (gathered.1, gathered.2.1, ReportLine.healthyEntry name version :: gathered.2.2)
      else
        (gathered.1, ReportLine.riskyEntry name version issues :: gathered.2.1, gathered.2.2)

/-- One manifest-file section of the `check_dependencies` report: header,
`packages = packages[:20]`, fan-out of `_api_get` over those packages (the
oracle `api` maps a package name to its registry response; parallel execution
with `executor.map` preserves input order), then `all_results` gets the error
lines, then `risky`, then `healthy`. -/
def fileSection (parseIso : Str → Option Int) (now : Int) (api : Str → ApiResult)
    (filename platform : Str) (packages : List (Str × Str)) : List ReportLine :=
  let pkgs := packages.take 20
  let gathered := collectResults parseIso now (pkgs.map (fun p => (p.1, p.2, api p.1)))
  ReportLine.header filename platform :: (gathered.1 ++ (gathered.2.1 ++ gathered.2.2))

/-- One item of a Libraries.io search result list, with the fields
`find_alternatives` reads. -/
structure SearchItem where
  name : Str
  stars : Int
deriving DecidableEq

/-- Stable insertion into a list sorted by non-increasing stars: walk past
elements with strictly more stars, stop at the first one with at most as many.
Equal-star elements keep their original relative order, matching Python's
stable `list.sort(key=lambda x: x.get("stars", 0), reverse=True)`. -/
def insertByStars (x : SearchItem) : List SearchItem → List SearchItem
  | [] => [x]
  | y :: ys => if x.stars < y.stars then y :: insertByStars x ys
               else x :: y :: ys

/-- Python stable sort, descending by stars. -/
def sortByStarsDesc (l : List SearchItem) : List SearchItem :=
  l.foldr insertByStars []

/-- The list-shaping part of `find_alternatives` (src/tools/packages.py):
filter out the queried name case-insensitively, sort by stars descending,
and display `alternatives[:6]`. -/
def find_alternatives_list (package_name : Str) (data : List SearchItem) : List SearchItem :=
  let alternatives := data.filter (fun p => !(pyLower p.name == pyLower package_name))
  (sortByStarsDesc alternatives).take 6

/-! ## src/tools/combined.py -/

/-- A snapshot as `compare` sees it: `_package_snapshot` and `_repo_snapshot`
both return either a dict with an `"error"` key or a dict of the fields
below; only the fields the verdict logic reads are carried
(`snap.get("stars", 0)` is total, `snap.get("months_since_release")` yields
`None` on repo snapshots, where the key is absent). -/
inductive Snap where
  | fail (msg : Str)
  | pkg (stars : Int) (months_since_release : Option Int)
  | repo (stars : Int)

/-- The `mode` variable of `compare`. -/
inductive CompareMode where
  | package
  | repo
  | mixed
deriving DecidableEq

/-- Model of `snap.get("stars", 0)`. -/
def Snap.stars : Snap → Int
  | .fail _ => 0
  | .pkg s _ => s
  | .repo s => s

/-- Model of `snap.get("months_since_release")`: `None` when the key is absent. -/
def Snap.months : Snap → Option Int
  | .fail _ => none
  | .pkg _ m => m
  | .repo _ => none

/-- Model of `"error" in snap`. -/
def Snap.isErr : Snap → Bool
  | .fail _ => true
  | _ => false

/-- The two verdict lines `compare` may append, abstracting
`f"More popular        : .."` and `f"More recently updated: .."`. -/
inductive Verdict where
  | morePopular (item : Str)
  | moreRecent (item : Str)
deriving DecidableEq

/-- The verdict-appending tail of `compare` (src/tools/combined.py,
lines 179-186): the list of lines appended to `out` after the separator. -/
def compareVerdicts (mode : CompareMode) (item1 item2 : Str) (snap1 snap2 : Snap) :
    List Verdict :=
  if snap1.isErr || snap2.isErr then []
  else
    let winner_stars := if snap2.stars ≤ snap1.stars then item1 else item2
    Verdict.morePopular winner_stars ::
      (if mode = CompareMode.package then
        match snap1.months, snap2.months with
        | some m1, some m2 =>
          [Verdict.moreRecent (if m1 ≤ m2 then item1 else item2)]
        | _, _ => []
      else [])

/-- How `compare` builds its snapshots (lines 154-169): in `package` mode both
come from `_package_snapshot`, in `repo` mode both from `_repo_snapshot`, in
`mixed` mode exactly one of each. -/
def modeConsistent (mode : CompareMode) (snap1 snap2 : Snap) : Prop :=
  match mode with
  | .package => (∀ s, snap1 ≠ Snap.repo s) ∧ (∀ s, snap2 ≠ Snap.repo s)
  | .repo => (∀ s m, snap1 ≠ Snap.pkg s m) ∧ (∀ s m, snap2 ≠ Snap.pkg s m)
  | .mixed =>
    ((∀ s m, snap1 ≠ Snap.pkg s m) ∧ (∀ s, snap2 ≠ Snap.repo s)) ∨
    ((∀ s, snap1 ≠ Snap.repo s) ∧ (∀ s m, snap2 ≠ Snap.pkg s m))

/-! ## Statement-side predicates and concrete instances -/

/-- Sep occurs at position `pre.length` of `t` and at no earlier position:
the split is made at the first occurrence. -/
def firstSplitAt (t sep pre post : Str) : Prop :=
  t = pre ++ sep ++ post ∧
  ∀ i < pre.length, sep.isPrefixOf (t.drop i) = false

/-- What C2 states about one emitted PackageRef: the constraint starts with
exactly the operator present in the (stripped) source line, split at its
first occurrence; with no operator, the constraint is empty and the name is
the whole stripped line. -/
def reqRefSpec (line : Str) (ref : Str × Str) : Prop :=
  (hasSub ("==".data) (pyStrip line) = true →
    ∃ pre post, firstSplitAt (pyStrip line) ("==".data) pre post ∧
      ref = (pyStrip pre, "==".data ++ pyStrip post)) ∧
  (hasSub ("==".data) (pyStrip line) = false →
    hasSub (">=".data) (pyStrip line) = true →
    ∃ pre post, firstSplitAt (pyStrip line) (">=".data) pre post ∧
      ref = (pyStrip pre, ">=".data ++ pyStrip post)) ∧
  (hasSub ("==".data) (pyStrip line) = false →
    hasSub (">=".data) (pyStrip line) = false →
    ref = (pyStrip (pyStrip line), ([] : Str)))

/-- C4 as stated: for each of the 7 known manifest filenames, the mapping has
an entry exactly when the fetch completed without error, and each present
value is the successfully decoded plain-text content. -/
def c4StatedClaim (resp : Str → GhResp) : Prop :=
  ∀ f ∈ packageFileNames,
    ((∃ c, (f, c) ∈ get_package_files resp) ↔ (∀ m, resp f ≠ GhResp.err m)) ∧
    (∀ c, (f, c) ∈ get_package_files resp → resp f = GhResp.b64 c)

/-- A response table under which `requirements.txt` is fetched and decoded
without error, but its content happens to begin with the word `"Error"`. -/
def c4Resp : Str → GhResp :=
  fun f =>
    if f = "requirements.txt".data then GhResp.b64 ("Error: upstream outage".data)
    else GhResp.err ("404".data)

/-! ## Helper lemmas -/

theorem wordsAux_eq_nil (s : Str) : ∀ acc : Str,
    (wordsAux s acc = [] ↔ (acc = [] ∧ ∀ c ∈ s, c.isWhitespace = true)) := by
  induction s with
  | nil => intro acc; by_cases h : acc = [] <;> simp [wordsAux, h]
  | cons c rest ih =>
    intro acc
    by_cases hw : c.isWhitespace
    · by_cases ha : acc = [] <;> simp [wordsAux, hw, ha, ih]
    · simp [wordsAux, hw, ih]

theorem pyWords_eq_nil (s : Str) :
    pyWords s = [] ↔ ∀ c ∈ s, c.isWhitespace = true := by
  simp [pyWords, wordsAux_eq_nil]

theorem mem_replaceChar_nil {c x : Char} {s : Str}
    (h : x ∈ replaceChar c [] s) : x ∈ s := by
  induction s with
  | nil => simp [replaceChar] at h
  | cons a as ih =>
    simp only [replaceChar] at h
    by_cases hac : a = c
    · simp only [hac, if_pos rfl, List.nil_append] at h
      exact List.mem_cons_of_mem _ (ih h)
    · simp only [if_neg hac, List.mem_cons] at h
      rcases h with rfl | h
      · exact List.mem_cons_self _ _
      · exact List.mem_cons_of_mem _ (ih h)

theorem toLower_whitespace {c : Char} (h : c.isWhitespace = true) :
    (Char.toLower c).isWhitespace = true := by
  simp only [Char.isWhitespace, Bool.or_eq_true, decide_eq_true_eq] at h
  rcases h with ((h | h) | h) | h <;> subst h <;> decide

theorem insertByStars_mem (x : SearchItem) (l : List SearchItem) (a : SearchItem) :
    a ∈ insertByStars x l ↔ a = x ∨ a ∈ l := by
  induction l with
  | nil => simp [insertByStars]
  | cons y ys ih =>
    simp only [insertByStars]
    split
    · simp only [List.mem_cons, ih]
      tauto
    · simp only [List.mem_cons]

theorem insertByStars_pairwise (x : SearchItem) (l : List SearchItem)
    (h : l.Pairwise (fun a b => b.stars ≤ a.stars)) :
    (insertByStars x l).Pairwise (fun a b => b.stars ≤ a.stars) := by
  induction l with
  | nil => simp [insertByStars]
  | cons y ys ih =>
    rcases List.pairwise_cons.mp h with ⟨hy, hys⟩
    simp only [insertByStars]
    split
    case isTrue hlt =>
      refine List.pairwise_cons.mpr ⟨?_, ih hys⟩
      intro z hz
      rcases (insertByStars_mem x ys z).mp hz with rfl | hzys
      · exact le_of_lt hlt
      · exact hy z hzys
    case isFalse hge =>
      refine List.pairwise_cons.mpr ⟨?_, h⟩
      intro z hz
      rcases List.mem_cons.mp hz with rfl | hz
      · exact not_lt.mp hge
      · exact le_trans (hy z hz) (not_lt.mp hge)

theorem sortByStarsDesc_mem (l : List SearchItem) (a : SearchItem) :
    a ∈ sortByStarsDesc l ↔ a ∈ l := by
  induction l with
  | nil => simp [sortByStarsDesc]
  | cons y ys ih =>
    simp only [sortByStarsDesc, List.foldr_cons] at *
    rw [insertByStars_mem, ih, List.mem_cons]

theorem sortByStarsDesc_pairwise (l : List SearchItem) :
    (sortByStarsDesc l).Pairwise (fun a b => b.stars ≤ a.stars) := by
  induction l with
  | nil => simp [sortByStarsDesc]
  | cons y ys ih => exact insertByStars_pairwise y _ ih

theorem splitFirst_eq_some (sep : Str) : ∀ l a b : Str,
    splitFirst sep l = some (a, b) →
    l = a ++ sep ++ b ∧ ∀ i < a.length, sep.isPrefixOf (l.drop i) = false := by
  intro l
  induction l with
  | nil =>
    intro a b h
    rw [splitFirst] at h
    split at h
    case isTrue hp =>
      have hsep : sep = [] := List.prefix_nil.mp ( List.isPrefixOf_iff_prefix.mp hp)
      injection h with h2
      injection h2 with ha hb
      subst hsep
      refine ⟨by simp [← ha, ← hb], ?_⟩
      intro i hi
      rw [← ha] at hi
      exact absurd hi (Nat.not_lt_zero i)
    case isFalse => exact absurd h (by simp)
  | cons c rest ih =>
    intro a b h
    rw [splitFirst] at h
    split at h
    case isTrue hp =>
      injection h with h2
      injection h2 with ha hb
      obtain ⟨t, ht⟩ := List.isPrefixOf_iff_prefix.mp hp
      have hdrop : (c :: rest).drop sep.length = t := by
        rw [← ht]
        exact List.drop_left sep t
      refine ⟨?_, ?_⟩
      · rw [← ha, ← hb, List.nil_append, hdrop, ht]
      · intro i hi
        rw [← ha] at hi
        exact absurd hi (Nat.not_lt_zero i)
    case isFalse hp =>
      rcases hsp : splitFirst sep rest with _ | ⟨a2, b2⟩
      · rw [hsp] at h
        exact absurd h (by simp)
      · rw [hsp] at h
        simp only [Option.map_some'] at h
        injection h with h2
        injection h2 with ha hb
        obtain ⟨ih1, ih2⟩ := ih a2 b2 hsp
        refine ⟨by rw [← ha, ← hb]; simp [ih1], ?_⟩
        intro i hi
        cases i with
        | zero =>
          rw [List.drop_zero]
          exact Bool.eq_false_iff.mpr hp
        | succ j =>
          rw [List.drop_succ_cons]
          rw [← ha] at hi
          simp only [List.length_cons, Nat.succ_lt_succ_iff] at hi
          exact ih2 j hi

theorem splitFirst_cons_self (c : Char) (rest : Str) :
    splitFirst [c] (c :: rest) = some ([], rest) := by
  rw [splitFirst]
  rw [if_pos (by simp [List.isPrefixOf])]
  rfl

theorem splitFirst_single_not_mem {c : Char} {junk : Str} (rest : Str)
    (h : c ∉ junk) :
    splitFirst [c] (junk ++ c :: rest) = some (junk, rest) := by
  induction junk with
  | nil => exact splitFirst_cons_self c rest
  | cons a as ih =>
    have hac : ¬ (c = a) := fun hh => h (hh ▸ List.mem_cons_self a as)
    have hcas : c ∉ as := fun hh => h (List.mem_cons_of_mem a hh)
    rw [List.cons_append, splitFirst]
    rw [if_neg (by simp [List.isPrefixOf, hac])]
    rw [ih hcas]
    rfl

theorem parseReqLine_isSome (line : Str) :
    (parseReqLine line).isSome = reqLineKept line := by
  by_cases h1 : pyStrip line = []
  · simp [parseReqLine, reqLineKept, h1]
  · by_cases h2 : (['#'] : Str).isPrefixOf (pyStrip line)
    · simp [parseReqLine, reqLineKept, h1, h2, List.isEmpty_iff]
    · by_cases h3 : (['-'] : Str).isPrefixOf (pyStrip line)
      · simp [parseReqLine, reqLineKept, h1, h2, h3, List.isEmpty_iff]
      · rcases h4 : splitFirst ("==".data) (pyStrip line) with _ | ⟨pre, post⟩
        · rcases h5 : splitFirst (">=".data) (pyStrip line) with _ | ⟨pre, post⟩
          · simp [parseReqLine, reqLineKept, h1, h2, h3, h4, h5, List.isEmpty_iff]
          · simp [parseReqLine, reqLineKept, h1, h2, h3, h4, h5, List.isEmpty_iff]
        · simp [parseReqLine, reqLineKept, h1, h2, h3, h4, List.isEmpty_iff]

theorem length_filterMap_eq {α β : Type} (f : α → Option β) : ∀ l : List α,
    (l.filterMap f).length = (l.filter (fun x => (f x).isSome)).length := by
  intro l
  induction l with
  | nil => rfl
  | cons a as ih =>
    rcases h : f a with _ | b <;>
      simp [List.filterMap_cons, List.filter_cons, h, ih]

theorem collectResults_shape (parseIso : Str → Option Int) (now : Int) :
    ∀ results : List (Str × Str × ApiResult),
      (∀ l ∈ (collectResults parseIso now results).1,
        ∃ n, l = ReportLine.fetchFailed n) ∧
      (∀ l ∈ (collectResults parseIso now results).2.1,
        ∃ n v iss, l = ReportLine.riskyEntry n v iss ∧ iss ≠ []) ∧
      (∀ l ∈ (collectResults parseIso now results).2.2,
        ∃ n v, l = ReportLine.healthyEntry n v) := by
  intro results
  induction results with
  | nil => refine ⟨?_, ?_, ?_⟩ <;> intro l hl <;> simp [collectResults] at hl
  | cons item rest ih =>
    obtain ⟨name, version, res⟩ := item
    obtain ⟨ihe, ihr, ihh⟩ := ih
    cases res with
    | err m =>
      refine ⟨?_, ?_, ?_⟩ <;> intro l hl <;>
        simp only [collectResults, List.mem_cons] at hl
      · rcases hl with rfl | hl
        · exact ⟨name, rfl⟩
        · exact ihe l hl
      · exact ihr l hl
      · exact ihh l hl
    | ok data =>
      by_cases hemp : (issuesFor data.deprecated
          (months_since parseIso now data.latest_release_published_at)
          data.contributions_count).isEmpty
      · refine ⟨?_, ?_, ?_⟩ <;> intro l hl <;>
          simp only [collectResults, if_pos hemp, List.mem_cons] at hl
        · exact ihe l hl
        · exact ihr l hl
        · rcases hl with rfl | hl
          · exact ⟨name, version, rfl⟩
          · exact ihh l hl
      · refine ⟨?_, ?_, ?_⟩ <;> intro l hl <;>
          simp only [collectResults, if_neg hemp, List.mem_cons] at hl
        · exact ihe l hl
        · rcases hl with rfl | hl
          · exact ⟨name, version, _, rfl, by
              intro hnil
              rw [hnil] at hemp
              exact hemp rfl⟩
          · exact ihr l hl
        · exact ihh l hl

theorem wordsAux_mem_ne_nil (s : Str) : ∀ (acc : Str), ∀ w ∈ wordsAux s acc, w ≠ [] := by
  induction s with
  | nil =>
    intro acc w hw
    rw [wordsAux] at hw
    split at hw
    · simp at hw
    case isFalse ha =>
      simp only [List.mem_singleton] at hw
      subst hw
      intro hh
      exact ha (List.reverse_eq_nil_iff.mp hh)
  | cons c rest ih =>
    intro acc w hw
    rw [wordsAux] at hw
    split at hw
    · split at hw
      · exact ih [] w hw
      case isFalse ha =>
        rcases List.mem_cons.mp hw with rfl | hw2
        · intro hh
          exact ha (List.reverse_eq_nil_iff.mp hh)
        · exact ih [] w hw2
    · exact ih (c :: acc) w hw

theorem intercalate_cons_ne_nil (sep x : Str) (xs : List Str) (hx : x ≠ []) :
    List.intercalate sep (x :: xs) ≠ [] := by
  cases xs with
  | nil => simpa [List.intercalate] using hx
  | cons y ys =>
    intro hh
    rw [List.intercalate] at hh
    simp only [List.intersperse, List.flatten_cons, List.append_eq_nil] at hh
    exact hx hh.1

/-! ## Claim theorems -/

/-- C1: a successfully fetched package record is classified risky exactly when
its deprecated flag is set, or its months-since-last-release is non-null and
strictly greater than 12, or its contributor count is strictly below 2;
deprecated alone forces risky, one contributor alone forces risky, and a
package with 5 contributors, not deprecated, released 6 months ago is
healthy. -/
theorem c1_risky_classification :
    (∀ (d : Bool) (m : Option Int) (c : Int),
      classified_risky d m c = true ↔
        (d = true ∨ (∃ mo, m = some mo ∧ 12 < mo) ∨ c < 2)) ∧
    (∀ (m : Option Int) (c : Int), classified_risky true m c = true) ∧
    classified_risky false (some 3) 1 = true ∧
    classified_risky false (some 6) 5 = false := by
  refine ⟨?_, ?_, by decide, by decide⟩
  · intro d m c
    rcases m with _ | mo <;> cases d <;>
      simp [classified_risky, issuesFor] <;> omega
  · intro m c
    rcases m with _ | mo <;> simp [classified_risky, issuesFor]

/-- C3: `extract_search_term` joins the first three surviving tokens of the
lowercased, `?`- and `,`-stripped, whitespace-split question after dropping
stopwords and tokens shorter than 3 characters; when nothing survives it
falls back to the first whitespace-delimited token of the original question;
on the concrete question about authentication the result is
`"authentication"`. -/
theorem c3_extract_search_term (q : Str) :
    (searchKeywords q ≠ [] →
      extract_search_term q = some (List.intercalate [' '] ((searchKeywords q).take 3))) ∧
    (searchKeywords q = [] → extract_search_term q = (pyWords q).head?) ∧
    extract_search_term ("How does authentication work in this repo?".data) =
      some ("authentication".data) := by
  refine ⟨?_, ?_, by decide⟩
  · intro h
    simp [extract_search_term, h]
  · intro h
    simp [extract_search_term, h]

/-- C9: on any question containing a non-whitespace character,
`extract_search_term` returns a non-empty string; on an all-whitespace
question the fallback `question.split()[0]` indexes an empty list and the
function does not return (modelled as `none`), so the precondition is
necessary. -/
theorem c9_nonempty_question_safety (q : Str) :
    ((∃ c ∈ q, c.isWhitespace = false) →
      ∃ s, extract_search_term q = some s ∧ s ≠ []) ∧
    ((∀ c ∈ q, c.isWhitespace = true) → extract_search_term q = none) := by
  constructor
  · rintro ⟨c, hc, hw⟩
    rcases hkw : searchKeywords q with _ | ⟨k0, ks⟩
    · have hne : pyWords q ≠ [] := by
        rw [Ne, pyWords_eq_nil]
        intro hall
        simp [hall c hc] at hw
      rcases hq : pyWords q with _ | ⟨w, ws⟩
      · exact absurd hq hne
      · refine ⟨w, ?_, ?_⟩
        · simp [extract_search_term, hkw, hq]
        · exact wordsAux_mem_ne_nil q [] w (by rw [show wordsAux q [] = pyWords q from rfl, hq]; exact List.mem_cons_self w ws)
    · have hk0 : k0 ∈ searchKeywords q := by
        rw [hkw]
        exact List.mem_cons_self k0 ks
      have hlen : 2 < k0.length := by
        rw [searchKeywords] at hk0
        have := (List.mem_filter.mp hk0).2
        simp only [Bool.and_eq_true, decide_eq_true_eq] at this
        exact this.2
      have hk0ne : k0 ≠ [] := by
        intro hh
        rw [hh] at hlen
        simp at hlen
      refine ⟨List.intercalate [' '] ((searchKeywords q).take 3), ?_, ?_⟩
      · simp [extract_search_term, hkw]
      · rw [hkw, List.take_succ_cons]
        exact intercalate_cons_ne_nil [' '] k0 (ks.take 2) hk0ne
  · intro hall
    have hwords : pyWords q = [] := (pyWords_eq_nil q).mpr hall
    have hkw : searchKeywords q = [] := by
      rw [searchKeywords]
      have hz : pyWords (replaceChar ',' [] (replaceChar '?' [] (pyLower q))) = [] := by
        rw [pyWords_eq_nil]
        intro c hc
        have hc2 := mem_replaceChar_nil hc
        have hc3 := mem_replaceChar_nil hc2
        rcases List.mem_map.mp hc3 with ⟨a, ha, rfl⟩
        exact toLower_whitespace (hall a ha)
      rw [hz]
      rfl
    simp [extract_search_term, hkw, hwords]

/-- C10: from any successful registry search result list, `find_alternatives`
displays at most 6 packages, never one whose name equals the queried name
case-insensitively, and in non-increasing star order. -/
theorem c10_find_alternatives (package_name : Str) (data : List SearchItem) :
    (find_alternatives_list package_name data).length ≤ 6 ∧
    (∀ p ∈ find_alternatives_list package_name data,
      pyLower p.name ≠ pyLower package_name) ∧
    (find_alternatives_list package_name data).Pairwise
      (fun a b => b.stars ≤ a.stars) := by
  refine ⟨?_, ?_, ?_⟩
  · simp only [find_alternatives_list, List.length_take]
    omega
  · intro p hp
    simp only [find_alternatives_list] at hp
    have hp1 := List.take_subset _ _ hp
    have hp2 := (sortByStarsDesc_mem _ _).mp hp1
    have hflt := (List.mem_filter.mp hp2).2
    intro heq
    simp [heq] at hflt
  · simp only [find_alternatives_list]
    exact List.Pairwise.sublist (List.take_sublist _ _) (sortByStarsDesc_pairwise _)

/-- C7: `months_since` returns null on the empty string and on any timestamp
the ISO parser rejects; on a parsable timestamp it returns the whole-day
difference from now, divided by 30 and truncated toward zero; and it is
antitone in the timestamp: of two parsable past timestamps, the older one
yields at least as many months. -/
theorem c7_months_since (parseIso : Str → Option Int) (now : Int) :
    months_since parseIso now [] = none ∧
    (∀ s, parseIso (replaceChar 'Z' ("+00:00".data) s) = none →
      months_since parseIso now s = none) ∧
    (∀ s t, parseIso (replaceChar 'Z' ("+00:00".data) s) = some t → s ≠ [] →
      months_since parseIso now s =
        some (Int.tdiv (Int.fdiv (now - t) 86400) 30)) ∧
    (∀ s1 s2 t1 t2 m1 m2,
      parseIso (replaceChar 'Z' ("+00:00".data) s1) = some t1 →
      parseIso (replaceChar 'Z' ("+00:00".data) s2) = some t2 →
      t1 < t2 → t2 ≤ now →
      months_since parseIso now s1 = some m1 →
      months_since parseIso now s2 = some m2 →
      m2 ≤ m1) := by
  refine ⟨rfl, ?_, ?_, ?_⟩
  · intro s hs
    by_cases h : s = ([] : Str) <;> simp [months_since, h, hs]
  · intro s t hs hne
    simp [months_since, hne, hs]
  · intro s1 s2 t1 t2 m1 m2 hp1 hp2 hlt hpast hm1 hm2
    by_cases h1 : s1 = ([] : Str)
    · rw [h1] at hm1; exact absurd hm1 (by simp [months_since])
    by_cases h2 : s2 = ([] : Str)
    · rw [h2] at hm2; exact absurd hm2 (by simp [months_since])
    rw [months_since, if_neg h1, hp1] at hm1
    rw [months_since, if_neg h2, hp2] at hm2
    have hm1e : m1 = Int.tdiv (Int.fdiv (now - t1) 86400) 30 :=
      (Option.some.injEq _ _ ▸ hm1).symm
    have hm2e : m2 = Int.tdiv (Int.fdiv (now - t2) 86400) 30 :=
      (Option.some.injEq _ _ ▸ hm2).symm
    subst hm1e hm2e
    have hd2 : (0 : Int) ≤ Int.fdiv (now - t2) 86400 :=
      Int.fdiv_nonneg (by omega) (by norm_num)
    have hdle : Int.fdiv (now - t2) 86400 ≤ Int.fdiv (now - t1) 86400 := by
      rw [Int.fdiv_eq_ediv _ (by norm_num : (0 : Int) ≤ 86400),
        Int.fdiv_eq_ediv _ (by norm_num : (0 : Int) ≤ 86400)]
      exact Int.ediv_le_ediv (by norm_num) (by omega)
    have hd1 : (0 : Int) ≤ Int.fdiv (now - t1) 86400 := le_trans hd2 hdle
    rw [Int.tdiv_eq_ediv hd2 (by norm_num), Int.tdiv_eq_ediv hd1 (by norm_num)]
    exact Int.ediv_le_ediv (by norm_num) hdle

/-- C5: when both snapshots of `compare` resolved without error, a
"more popular" verdict names the item with the higher star count (item1 on a
tie), and a "more recently updated" verdict follows exactly when both are
package snapshots with non-null months-since-release, naming the item with
fewer months (item1 on a tie); when either snapshot errored nothing is
appended. -/
theorem c5_compare_verdicts (mode : CompareMode) (item1 item2 : Str)
    (snap1 snap2 : Snap) (hmc : modeConsistent mode snap1 snap2) :
    (snap1.isErr = false → snap2.isErr = false →
      ∃ tail,
        compareVerdicts mode item1 item2 snap1 snap2 =
          Verdict.morePopular (if snap2.stars ≤ snap1.stars then item1 else item2)
            :: tail ∧
        ((∃ s1 m1 s2 m2, snap1 = Snap.pkg s1 (some m1) ∧ snap2 = Snap.pkg s2 (some m2) ∧
            tail = [Verdict.moreRecent (if m1 ≤ m2 then item1 else item2)]) ∨
         ((¬ ∃ s1 m1 s2 m2, snap1 = Snap.pkg s1 (some m1) ∧ snap2 = Snap.pkg s2 (some m2)) ∧
            tail = []))) ∧
    (snap1.isErr = true ∨ snap2.isErr = true →
      compareVerdicts mode item1 item2 snap1 snap2 = []) := by
  constructor
  · intro h1 h2
    cases mode with
    | package =>
      rcases snap1 with m | ⟨st1, mo1⟩ | st1
      · exact absurd h1 (by simp [Snap.isErr])
      · rcases snap2 with m | ⟨st2, mo2⟩ | st2
        · exact absurd h2 (by simp [Snap.isErr])
        · rcases mo1 with _ | m1 <;> rcases mo2 with _ | m2
          · exact ⟨[], rfl, Or.inr ⟨by rintro ⟨s1, mm1, s2, mm2, h, _⟩; simp at h, rfl⟩⟩
          · exact ⟨[], rfl, Or.inr ⟨by rintro ⟨s1, mm1, s2, mm2, h, _⟩; simp at h, rfl⟩⟩
          · exact ⟨[], rfl, Or.inr ⟨by rintro ⟨s1, mm1, s2, mm2, _, h⟩; simp at h, rfl⟩⟩
          · exact ⟨[Verdict.moreRecent (if m1 ≤ m2 then item1 else item2)], rfl,
              Or.inl ⟨st1, m1, st2, m2, rfl, rfl, rfl⟩⟩
        · exact absurd rfl (hmc.2 st2)
      · exact absurd rfl (hmc.1 st1)
    | repo =>
      refine ⟨[], ?_, Or.inr ⟨?_, rfl⟩⟩
      · rcases snap1 with m | ⟨st1, mo1⟩ | st1 <;>
          rcases snap2 with m | ⟨st2, mo2⟩ | st2 <;>
          simp_all [compareVerdicts, Snap.isErr]
      · rintro ⟨s1, mm1, s2, mm2, hh1, hh2⟩
        exact hmc.1 s1 (some mm1) hh1
    | mixed =>
      refine ⟨[], ?_, Or.inr ⟨?_, rfl⟩⟩
      · rcases snap1 with m | ⟨st1, mo1⟩ | st1 <;>
          rcases snap2 with m | ⟨st2, mo2⟩ | st2 <;>
          simp_all [compareVerdicts, Snap.isErr]
      · rintro ⟨s1, mm1, s2, mm2, hh1, hh2⟩
        rcases hmc with ⟨hna, _⟩ | ⟨_, hnb⟩
        · exact hna s1 (some mm1) hh1
        · exact hnb s2 (some mm2) hh2
  · intro herr
    rcases herr with h | h <;> simp [compareVerdicts, h]


/-- C2: on any requirements.txt content, one PackageRef is emitted per
non-blank, non-comment, non-flag line; a skipped line yields nothing; each
kept line yields a ref whose constraint starts with exactly the operator
present in the line (`==` checked first, then `>=`), split at the operator's
first occurrence, or an empty constraint with the stripped line as name when
neither operator occurs. -/
theorem c2_requirements_emission (content : Str) :
    (extract_packages_requirements content).length =
      ((splitOnChar '\n' content).filter reqLineKept).length ∧
    (∀ line ∈ splitOnChar '\n' content, reqLineKept line = false →
      parseReqLine line = none) ∧
    (∀ line ∈ splitOnChar '\n' content, reqLineKept line = true →
      ∃ ref, parseReqLine line = some ref ∧ reqRefSpec line ref) ∧
    extract_packages_requirements content =
      (splitOnChar '\n' content).filterMap parseReqLine := by
  refine ⟨?_, ?_, ?_, rfl⟩
  · rw [extract_packages_requirements, length_filterMap_eq]
    congr 1
    apply List.filter_congr
    intro x _
    exact parseReqLine_isSome x
  · intro line _ hk
    have hs := parseReqLine_isSome line
    rw [hk] at hs
    exact Option.not_isSome_iff_eq_none.mp (by simp [hs])
  · intro line _ hk
    rw [reqLineKept] at hk
    simp only [Bool.and_eq_true, Bool.not_eq_true'] at hk
    obtain ⟨⟨he, h2⟩, h3⟩ := hk
    have h1 : ¬ (pyStrip line = []) := by
      intro hh
      rw [hh] at he
      simp at he
    rcases h4 : splitFirst ("==".data) (pyStrip line) with _ | ⟨pre, post⟩
    · rcases h5 : splitFirst (">=".data) (pyStrip line) with _ | ⟨pre, post⟩
      · refine ⟨(pyStrip (pyStrip line), ([] : Str)), ?_, ?_, ?_, ?_⟩
        · simp [parseReqLine, h1, h2, h3, h4, h5]
        · intro hh
          rw [hasSub, h4] at hh
          simp at hh
        · intro _ hh
          rw [hasSub, h5] at hh
          simp at hh
        · intro _ _
          rfl
      · refine ⟨(pyStrip pre, ">=".data ++ pyStrip post), ?_, ?_, ?_, ?_⟩
        · simp [parseReqLine, h1, h2, h3, h4, h5]
        · intro hh
          rw [hasSub, h4] at hh
          simp at hh
        · intro _ _
          obtain ⟨heq, hfirst⟩ := splitFirst_eq_some _ _ _ _ h5
          exact ⟨pre, post, ⟨heq, hfirst⟩, rfl⟩
        · intro _ hh
          rw [hasSub, h5] at hh
          simp at hh
    · refine ⟨(pyStrip pre, "==".data ++ pyStrip post), ?_, ?_, ?_, ?_⟩
      · simp [parseReqLine, h1, h2, h3, h4]
      · intro _
        obtain ⟨heq, hfirst⟩ := splitFirst_eq_some _ _ _ _ h4
        exact ⟨pre, post, ⟨heq, hfirst⟩, rfl⟩
      · intro hh
        rw [hasSub, h4] at hh
        simp at hh
      · intro hh
        rw [hasSub, h4] at hh
        simp at hh

/-- C4 counterexample: under `c4Resp`, `requirements.txt` is fetched and
decoded without error, yet the stated claim fails, because the decoded
content starts with `"Error"` and the file is silently dropped. -/
theorem c4_stated_claim_false : ¬ c4StatedClaim c4Resp := by
  intro h
  obtain ⟨hiff, _⟩ := h ("requirements.txt".data) (by decide)
  have hok : ∀ m, c4Resp ("requirements.txt".data) ≠ GhResp.err m := by
    intro m hm
    rw [show c4Resp ("requirements.txt".data) =
      GhResp.b64 ("Error: upstream outage".data) from rfl] at hm
    exact GhResp.noConfusion hm
  obtain ⟨c, hc⟩ := hiff.mpr hok
  have hempty : get_package_files c4Resp = [] := by decide
  rw [hempty] at hc
  exact List.not_mem_nil _ hc

/-- C4 amended: the mapping contains an entry for a filename exactly when it
is one of the 7 probed names and the string `get_file_content` returned does
not start with `"Error"`; each present value is that returned string (the
decoded content for a base64 response, the could-not-decode placeholder
otherwise). -/
theorem c4_amended_mapping (resp : Str → GhResp) (f : Str) :
    ((∃ c, (f, c) ∈ get_package_files resp) ↔
      (f ∈ packageFileNames ∧
        ("Error".data).isPrefixOf (get_file_content resp f) = false)) ∧
    (∀ c, (f, c) ∈ get_package_files resp → c = get_file_content resp f) := by
  have hmem : ∀ c, (f, c) ∈ get_package_files resp →
      f ∈ packageFileNames ∧
      ("Error".data).isPrefixOf (get_file_content resp f) = false ∧
      c = get_file_content resp f := by
    intro c hc
    rw [get_package_files, List.mem_filterMap] at hc
    obtain ⟨a, ha, hga⟩ := hc
    by_cases hp : ("Error".data).isPrefixOf (get_file_content resp a) = true
    · rw [if_pos hp] at hga
      exact absurd hga (by simp)
    · rw [if_neg hp] at hga
      injection hga with h2
      injection h2 with hfa hca
      subst hfa
      exact ⟨ha, Bool.eq_false_iff.mpr hp, hca.symm⟩
  constructor
  · constructor
    · rintro ⟨c, hc⟩
      obtain ⟨hh1, hh2, _⟩ := hmem c hc
      exact ⟨hh1, hh2⟩
    · rintro ⟨hmemf, hp⟩
      refine ⟨get_file_content resp f, ?_⟩
      rw [get_package_files, List.mem_filterMap]
      exact ⟨f, hmemf, by rw [if_neg (by simp [hp])]⟩
  · intro c hc
    exact (hmem c hc).2.2

/-- C6: on package.json content, parsing starts at the first opening brace
(leading junk without one is tolerated and content with none yields the empty
list), and when the parsed object carries object-valued `dependencies` (N
keys) and `devDependencies` (M keys), exactly N+M PackageRefs come out,
dependencies first, each section in source key order. -/
theorem c6_packagejson_extraction (loads : Str → Option (List (Str × Jval)))
    (content : Str) (fields deps devs : List (Str × Jval)) :
    (splitFirst ([openBrace] : Str) content = none →
      extract_packages_packagejson loads content = []) ∧
    (∀ pre post, splitFirst ([openBrace] : Str) content = some (pre, post) →
      loads (openBrace :: post) = some fields →
      List.lookup ("dependencies".data) fields = some (Jval.obj deps) →
      List.lookup ("devDependencies".data) fields = some (Jval.obj devs) →
      extract_packages_packagejson loads content = deps ++ devs ∧
      (extract_packages_packagejson loads content).length =
        deps.length + devs.length) ∧
    (∀ junk rest, openBrace ∉ junk →
      extract_packages_packagejson loads (junk ++ openBrace :: rest) =
        extract_packages_packagejson loads (openBrace :: rest)) := by
  refine ⟨?_, ?_, ?_⟩
  · intro h
    rw [extract_packages_packagejson, h]
  · intro pre post hsplit hloads hdeps hdevs
    have hmain : extract_packages_packagejson loads content = deps ++ devs := by
      simp only [extract_packages_packagejson, hsplit, hloads, sectionItems,
        hdeps, hdevs]
    exact ⟨hmain, by rw [hmain, List.length_append]⟩
  · intro junk rest hnot
    rw [extract_packages_packagejson, splitFirst_single_not_mem rest hnot,
      extract_packages_packagejson, splitFirst_cons_self openBrace rest]

/-- C8: each manifest section of the check_dependencies report is computed
from only the first 20 parsed packages, and the section is a header followed
by could-not-fetch lines, then all risky entries, then all healthy entries:
every risky line precedes every healthy line. -/
theorem c8_section_report (parseIso : Str → Option Int) (now : Int)
    (api : Str → ApiResult) (filename platform : Str)
    (packages : List (Str × Str)) :
    fileSection parseIso now api filename platform packages =
      fileSection parseIso now api filename platform (packages.take 20) ∧
    (packages.take 20).length ≤ 20 ∧
    ∃ e r h, fileSection parseIso now api filename platform packages =
        ReportLine.header filename platform :: (e ++ (r ++ h)) ∧
      (∀ l ∈ e, ∃ n, l = ReportLine.fetchFailed n) ∧
      (∀ l ∈ r, ∃ n v iss, l = ReportLine.riskyEntry n v iss ∧ iss ≠ []) ∧
      (∀ l ∈ h, ∃ n v, l = ReportLine.healthyEntry n v) := by
  refine ⟨?_, ?_, ?_⟩
  · rw [fileSection, fileSection, List.take_take, Nat.min_self]
  · rw [List.length_take]
    omega
  · obtain ⟨he, hr, hh⟩ := collectResults_shape parseIso now
      ((packages.take 20).map (fun p => (p.1, p.2, api p.1)))
    exact ⟨_, _, _, rfl, he, hr, hh⟩

/-- Concrete instantiation of the C5 theorem: package mode, no errors,
5 stars vs 3 stars. -/
theorem c5_compare_verdicts_witness :
    ∃ tail,
      compareVerdicts CompareMode.package ("left".data) ("right".data)
        (Snap.pkg 5 (some 1)) (Snap.pkg 3 (some 2)) =
        Verdict.morePopular ("left".data) :: tail := by
  obtain ⟨tail, h, _⟩ :=
    (c5_compare_verdicts CompareMode.package ("left".data) ("right".data)
      (Snap.pkg 5 (some 1)) (Snap.pkg 3 (some 2))
      ⟨fun s hs => Snap.noConfusion hs, fun s hs => Snap.noConfusion hs⟩).1
      rfl rfl
  exact ⟨tail, h⟩


end Codelens
